import Mathlib

/-!
Verification of the Java comment extractor.

The scanner `process` in `src/main.rs` is embedded as a recursive function
over `List Char`: the Rust `chars().peekable()` iterator becomes the list,
`chars.next()` takes the head, `chars.peek()` inspects the head without
consuming it, and `output.push` becomes list cons.  The helper
`maybe_close_block_comment` and the leading-asterisk absorption loop are
embedded as functions that return the consumed-past suffix of the input.
-/

namespace JavaExtractor

/-- The six lexical states of the scanner (`enum State` in `src/main.rs`). -/
inductive State
  | Normal
  | LineComment
  | BlockComment
  | StringLiteral
  | TextBlockLiteral
  | CharLiteral
deriving DecidableEq

/-- The `while let Some(' ' | '\t') = chars.peek() { chars.next(); }` loop at
the start of `maybe_close_block_comment`: drop leading spaces and tabs. -/
def skipSpacesTabs : List Char → List Char
  | c :: cs => if c = ' ' ∨ c = '\t' then skipSpacesTabs cs else c :: cs
  | [] => []

/-- The `while let Some('*') = chars.peek() { chars.next(); output.push(' '); }`
loop in the `/*` branch of `process`: returns how many leading asterisks were
consumed, and the rest of the input. -/
def skipStars : List Char → Nat × List Char
  | '*' :: cs => ((skipStars cs).1 + 1, (skipStars cs).2)
  | cs => (0, cs)

/-- `maybe_close_block_comment` from `src/main.rs`: skip spaces and tabs, then
if a `*` follows consume it; if a `/` follows that, consume it and report
closure; otherwise if a space follows the `*`, consume that space.  Returns
(closed?, remaining input).  Nothing consumed here is ever echoed to output. -/
def maybe_close_block_comment (cs : List Char) : Bool × List Char :=
  match skipSpacesTabs cs with
  | '*' :: cs1 =>
    match cs1 with
    | '/' :: cs2 => (true, cs2)
    | ' ' :: cs2 => (false, cs2)
    | _ => (false, cs1)
  | cs1 => (false, cs1)

theorem skipSpacesTabs_length_le (cs : List Char) :
    (skipSpacesTabs cs).length ≤ cs.length := by
  induction cs with
  | nil => simp [skipSpacesTabs]
  | cons c cs ih =>
    simp only [skipSpacesTabs]
    split
    · exact Nat.le_succ_of_le ih
    · exact Nat.le_refl _

theorem skipStars_length_le (cs : List Char) :
    (skipStars cs).2.length ≤ cs.length := by
  induction cs with
  | nil => simp [skipStars]
  | cons c cs ih =>
    by_cases h : c = '*'
    · subst h
      simp only [skipStars]
      exact Nat.le_succ_of_le ih
    · rw [show skipStars (c :: cs) = (0, c :: cs) from by
        unfold skipStars
        split
        · simp_all
        · rfl]

theorem maybe_close_length_le (cs : List Char) :
    (maybe_close_block_comment cs).2.length ≤ cs.length := by
  have h := skipSpacesTabs_length_le cs
  unfold maybe_close_block_comment
  split
  · split <;> simp_all <;> omega
  · simp_all

/-- The scanner loop of `process` in `src/main.rs`, one constructor branch per
(state, character) case of the Rust `match`.  `preserve` is the
`preserve_strings` flag. -/
def processAux (preserve : Bool) : State → List Char → List Char
  | _, [] => []
  | State.Normal, c :: cs =>
    match c, cs with
    | '/', '/' :: cs2 => ' ' :: ' ' :: processAux preserve State.LineComment cs2
    | '/', '*' :: cs2 =>
      ' ' :: ' ' :: (List.replicate (skipStars cs2).1 ' ' ++
        processAux preserve
          (if (maybe_close_block_comment (skipStars cs2).2).1 then State.Normal else State.BlockComment)
          (maybe_close_block_comment (skipStars cs2).2).2)
    | '/', cs1 => ' ' :: processAux preserve State.Normal cs1
    | '"', '"' :: '"' :: cs2 => ' ' :: ' ' :: ' ' :: processAux preserve State.TextBlockLiteral cs2
    | '"', '"' :: cs2 => ' ' :: ' ' :: processAux preserve State.Normal cs2
    | '"', cs1 => ' ' :: processAux preserve State.StringLiteral cs1
    | '\'', cs1 => ' ' :: processAux preserve State.CharLiteral cs1
    | '\n', cs1 => '\n' :: processAux preserve State.Normal cs1
    | _, cs1 => ' ' :: processAux preserve State.Normal cs1
  | State.LineComment, c :: cs =>
    match c, cs with
    | '\n', cs1 => '\n' :: processAux preserve State.Normal cs1
    | c1, cs1 => c1 :: processAux preserve State.LineComment cs1
  | State.BlockComment, c :: cs =>
    match c, cs with
    | '*', '/' :: cs2 => ' ' :: ' ' :: processAux preserve State.Normal cs2
    | '*', cs1 => '*' :: processAux preserve State.BlockComment cs1
    | '\n', cs1 =>
      '\n' :: processAux preserve
        (if (maybe_close_block_comment cs1).1 then State.Normal else State.BlockComment)
        (maybe_close_block_comment cs1).2
    | c1, cs1 => c1 :: processAux preserve State.BlockComment cs1
  | State.StringLiteral, c :: cs =>
    match c, cs with
    | '\\', e :: cs2 => (if preserve then e else ' ') :: processAux preserve State.StringLiteral cs2
    | '\\', [] => []
    | '"', cs1 => ' ' :: processAux preserve State.Normal cs1
    | '\n', cs1 => '\n' :: processAux preserve State.Normal cs1
    | c1, cs1 => (if preserve then c1 else ' ') :: processAux preserve State.StringLiteral cs1
  | State.TextBlockLiteral, c :: cs =>
    match c, cs with
    | '"', '"' :: '"' :: cs2 => ' ' :: ' ' :: ' ' :: processAux preserve State.Normal cs2
    | '"', '"' :: cs2 =>
      (if preserve then '"' else ' ') :: processAux preserve State.TextBlockLiteral cs2
    | '"', cs1 => (if preserve then '"' else ' ') :: processAux preserve State.TextBlockLiteral cs1
    | '\\', e :: cs2 => (if preserve then e else ' ') :: processAux preserve State.TextBlockLiteral cs2
    | '\\', [] => []
    | '\n', cs1 => '\n' :: processAux preserve State.TextBlockLiteral cs1
    | c1, cs1 => (if preserve then c1 else ' ') :: processAux preserve State.TextBlockLiteral cs1
  | State.CharLiteral, c :: cs =>
    match c, cs with
    | '\\', _ :: cs2 => ' ' :: ' ' :: processAux preserve State.CharLiteral cs2
    | '\\', [] => [' ']
    | '\'', cs1 => ' ' :: processAux preserve State.Normal cs1
    | '\n', cs1 => '\n' :: processAux preserve State.Normal cs1
    | _, cs1 => ' ' :: processAux preserve State.CharLiteral cs1
termination_by _ cs => cs.length
decreasing_by
  all_goals simp_wf
  all_goals try omega
  · have h1 := maybe_close_length_le (skipStars cs2).2
    have h2 := skipStars_length_le cs2
    omega
  · have h1 := maybe_close_length_le cs1
    omega

/-- `process` from `src/main.rs`: run the scanner from `State.Normal` on the whole
input. -/
def process (input : List Char) (preserve_strings : Bool) : List Char :=
  processAux preserve_strings State.Normal input

/-- The lexical state held in `state` when the `while let` loop of `process`
exits: same recursion as `processAux`, but returning the final `State` instead
of the output.  (The state transitions in `process` do not depend on
`preserve_strings`, so no flag argument is needed.) -/
def finalStateAux : State → List Char → State
  | s, [] => s
  | State.Normal, c :: cs =>
    match c, cs with
    | '/', '/' :: cs2 => finalStateAux State.LineComment cs2
    | '/', '*' :: cs2 =>
      finalStateAux
        (if (maybe_close_block_comment (skipStars cs2).2).1 then State.Normal else State.BlockComment)
        (maybe_close_block_comment (skipStars cs2).2).2
    | '/', cs1 => finalStateAux State.Normal cs1
    | '"', '"' :: '"' :: cs2 => finalStateAux State.TextBlockLiteral cs2
    | '"', '"' :: cs2 => finalStateAux State.Normal cs2
    | '"', cs1 => finalStateAux State.StringLiteral cs1
    | '\'', cs1 => finalStateAux State.CharLiteral cs1
    | '\n', cs1 => finalStateAux State.Normal cs1
    | _, cs1 => finalStateAux State.Normal cs1
  | State.LineComment, c :: cs =>
    match c, cs with
    | '\n', cs1 => finalStateAux State.Normal cs1
    | _, cs1 => finalStateAux State.LineComment cs1
  | State.BlockComment, c :: cs =>
    match c, cs with
    | '*', '/' :: cs2 => finalStateAux State.Normal cs2
    | '*', cs1 => finalStateAux State.BlockComment cs1
    | '\n', cs1 =>
      finalStateAux
        (if (maybe_close_block_comment cs1).1 then State.Normal else State.BlockComment)
        (maybe_close_block_comment cs1).2
    | _, cs1 => finalStateAux State.BlockComment cs1
  | State.StringLiteral, c :: cs =>
    match c, cs with
    | '\\', _ :: cs2 => finalStateAux State.StringLiteral cs2
    | '\\', [] => State.StringLiteral
    | '"', cs1 => finalStateAux State.Normal cs1
    | '\n', cs1 => finalStateAux State.Normal cs1
    | _, cs1 => finalStateAux State.StringLiteral cs1
  | State.TextBlockLiteral, c :: cs =>
    match c, cs with
    | '"', '"' :: '"' :: cs2 => finalStateAux State.Normal cs2
    | '"', '"' :: cs2 => finalStateAux State.TextBlockLiteral cs2
    | '"', cs1 => finalStateAux State.TextBlockLiteral cs1
    | '\\', _ :: cs2 => finalStateAux State.TextBlockLiteral cs2
    | '\\', [] => State.TextBlockLiteral
    | '\n', cs1 => finalStateAux State.TextBlockLiteral cs1
    | _, cs1 => finalStateAux State.TextBlockLiteral cs1
  | State.CharLiteral, c :: cs =>
    match c, cs with
    | '\\', _ :: cs2 => finalStateAux State.CharLiteral cs2
    | '\\', [] => State.CharLiteral
    | '\'', cs1 => finalStateAux State.Normal cs1
    | '\n', cs1 => finalStateAux State.Normal cs1
    | _, cs1 => finalStateAux State.CharLiteral cs1
termination_by _ cs => cs.length
decreasing_by
  all_goals simp_wf
  all_goals try omega
  · have h1 := maybe_close_length_le (skipStars cs2).2
    have h2 := skipStars_length_le cs2
    omega
  · have h1 := maybe_close_length_le cs1
    omega

/-- The state `process` is in after consuming the whole input, starting from
`State.Normal`. -/
def finalState (input : List Char) : State :=
  finalStateAux State.Normal input

/-- Instrumentation of the scan of `process`: `true` exactly when no step of
the run consumes more input characters than it emits output characters.  The
recursion mirrors `processAux`; the unbalanced steps are the backslash-escape
collapse in `StringLiteral` and `TextBlockLiteral` (2 consumed, 1 emitted; 1
consumed, 0 emitted at end of input), the quote-quote-not-triple collapse in
`TextBlockLiteral` (2 consumed, 1 emitted), and any consumption by
`maybe_close_block_comment` (which emits nothing), checked both where a block
comment opens and after each newline inside one. -/
def safeAux : State → List Char → Bool
  | _, [] => true
  | State.Normal, c :: cs =>
    match c, cs with
    | '/', '/' :: cs2 => safeAux State.LineComment cs2
    | '/', '*' :: cs2 =>
      decide ((maybe_close_block_comment (skipStars cs2).2).2.length = (skipStars cs2).2.length) &&
        safeAux
          (if (maybe_close_block_comment (skipStars cs2).2).1 then State.Normal else State.BlockComment)
          (maybe_close_block_comment (skipStars cs2).2).2
    | '/', cs1 => safeAux State.Normal cs1
    | '"', '"' :: '"' :: cs2 => safeAux State.TextBlockLiteral cs2
    | '"', '"' :: cs2 => safeAux State.Normal cs2
    | '"', cs1 => safeAux State.StringLiteral cs1
    | '\'', cs1 => safeAux State.CharLiteral cs1
    | '\n', cs1 => safeAux State.Normal cs1
    | _, cs1 => safeAux State.Normal cs1
  | State.LineComment, c :: cs =>
    match c, cs with
    | '\n', cs1 => safeAux State.Normal cs1
    | _, cs1 => safeAux State.LineComment cs1
  | State.BlockComment, c :: cs =>
    match c, cs with
    | '*', '/' :: cs2 => safeAux State.Normal cs2
    | '*', cs1 => safeAux State.BlockComment cs1
    | '\n', cs1 =>
      decide ((maybe_close_block_comment cs1).2.length = cs1.length) &&
        safeAux
          (if (maybe_close_block_comment cs1).1 then State.Normal else State.BlockComment)
          (maybe_close_block_comment cs1).2
    | _, cs1 => safeAux State.BlockComment cs1
  | State.StringLiteral, c :: cs =>
    match c, cs with
    | '\\', _ :: _ => false
    | '\\', [] => false
    | '"', cs1 => safeAux State.Normal cs1
    | '\n', cs1 => safeAux State.Normal cs1
    | _, cs1 => safeAux State.StringLiteral cs1
  | State.TextBlockLiteral, c :: cs =>
    match c, cs with
    | '"', '"' :: '"' :: cs2 => safeAux State.Normal cs2
    | '"', '"' :: _ => false
    | '"', cs1 => safeAux State.TextBlockLiteral cs1
    | '\\', _ :: _ => false
    | '\\', [] => false
    | '\n', cs1 => safeAux State.TextBlockLiteral cs1
    | _, cs1 => safeAux State.TextBlockLiteral cs1
  | State.CharLiteral, c :: cs =>
    match c, cs with
    | '\\', _ :: cs2 => safeAux State.CharLiteral cs2
    | '\\', [] => true
    | '\'', cs1 => safeAux State.Normal cs1
    | '\n', cs1 => safeAux State.Normal cs1
    | _, cs1 => safeAux State.CharLiteral cs1
termination_by _ cs => cs.length
decreasing_by
  all_goals simp_wf
  all_goals try omega
  · have h1 := maybe_close_length_le (skipStars cs2).2
    have h2 := skipStars_length_le cs2
    omega
  · have h1 := maybe_close_length_le cs1
    omega

/-- `main` from `src/main.rs`, successful path: after reading the input it runs
`let output = process(&input, args.preserve_strings); println!("{}", output)`.
`println!` writes its argument followed by one `'\n'`, so the characters the
program sends to standard output are exactly these. -/
def mainOutput (input : List Char) (preserve_strings : Bool) : List Char :=
  process input preserve_strings ++ ['\n']

/-- `BufferedCharReader` from `src/buffered_char_reader.rs`: the not-yet-read
part of the decoded character stream (`buf`/`pos` plus whatever the underlying
reader still holds), and the one-character lookahead cache `peeked`. -/
structure BufferedCharReader where
  stream : List Char
  peeked : Option Char
deriving DecidableEq

/-- `BufferedCharReader::next_char`: return the cached peeked character if
any (clearing the cache), otherwise take the next character of the stream. -/
def BufferedCharReader.next_char : BufferedCharReader → Option Char × BufferedCharReader
  | ⟨s, some c⟩ => (some c, ⟨s, none⟩)
  | ⟨[], none⟩ => (none, ⟨[], none⟩)
  | ⟨c :: s, none⟩ => (some c, ⟨s, none⟩)

/-- `BufferedCharReader::peek_char`: if nothing is cached, pull one character
with `next_char` and cache the result; return the cached value. -/
def BufferedCharReader.peek_char (r : BufferedCharReader) : Option Char × BufferedCharReader :=
  match r.peeked with
  | some c => (some c, r)
  | none =>
    match r.next_char with
    | (c, r1) => (c, ⟨r1.stream, c⟩)

/-- The characters a `BufferedCharReader` will deliver, in order: the cached
peeked character (if any) first, then the rest of the stream. -/
def BufferedCharReader.toList (r : BufferedCharReader) : List Char :=
  (match r.peeked with | some c => [c] | none => []) ++ r.stream

theorem skipStars_cons_star (cs : List Char) :
    skipStars ('*' :: cs) = ((skipStars cs).1 + 1, (skipStars cs).2) := rfl

theorem skipStars_cons_of_ne {c : Char} (cs : List Char) (h : c ≠ '*') :
    skipStars (c :: cs) = (0, c :: cs) := by
  unfold skipStars
  split
  · simp_all
  · rfl

theorem skipStars_length_eq (cs : List Char) :
    (skipStars cs).1 + ((skipStars cs).2).length = cs.length := by
  induction cs with
  | nil => simp [skipStars]
  | cons c cs ih =>
    by_cases h : c = '*'
    · subst h
      rw [skipStars_cons_star]
      simp only [List.length_cons]
      omega
    · rw [skipStars_cons_of_ne cs h]
      simp

theorem skipStars_count_eq (x : Char) (hx : ('*' : Char) ≠ x) (cs : List Char) :
    ((skipStars cs).2).count x = cs.count x := by
  induction cs with
  | nil => simp [skipStars]
  | cons c cs ih =>
    by_cases h : c = '*'
    · subst h
      rw [skipStars_cons_star]
      simp only []
      rw [ih, List.count_cons_of_ne (Ne.symm hx) cs]
    · rw [skipStars_cons_of_ne cs h]

theorem skipSpacesTabs_count_eq (x : Char) (h1 : (' ' : Char) ≠ x) (h2 : ('\t' : Char) ≠ x)
    (cs : List Char) : (skipSpacesTabs cs).count x = cs.count x := by
  induction cs with
  | nil => simp [skipSpacesTabs]
  | cons c cs ih =>
    simp only [skipSpacesTabs]
    split
    · rename_i hc
      rw [ih, List.count_cons_of_ne
        (by rcases hc with h | h <;> subst h <;> [exact Ne.symm h1; exact Ne.symm h2]) cs]
    · rfl

theorem maybe_close_count_eq (x : Char) (h1 : (' ' : Char) ≠ x) (h2 : ('\t' : Char) ≠ x)
    (h3 : ('*' : Char) ≠ x) (h4 : ('/' : Char) ≠ x) (cs : List Char) :
    ((maybe_close_block_comment cs).2).count x = cs.count x := by
  have h := skipSpacesTabs_count_eq x h1 h2 cs
  unfold maybe_close_block_comment
  split
  · split <;> simp_all [List.count_cons]
  · simp_all

theorem skipStars_not_mem (x : Char) (h3 : ('*' : Char) ≠ x) {cs : List Char}
    (hx : x ∉ cs) : x ∉ (skipStars cs).2 := by
  rw [← List.count_eq_zero, skipStars_count_eq x h3, List.count_eq_zero]
  exact hx

theorem maybe_close_not_mem (x : Char) (h1 : (' ' : Char) ≠ x) (h2 : ('\t' : Char) ≠ x)
    (h3 : ('*' : Char) ≠ x) (h4 : ('/' : Char) ≠ x) {cs : List Char}
    (hx : x ∉ cs) : x ∉ (maybe_close_block_comment cs).2 := by
  rw [← List.count_eq_zero, maybe_close_count_eq x h1 h2 h3 h4, List.count_eq_zero]
  exact hx

theorem processAux_length_le (p : Bool) (s : State) (cs : List Char) :
    (processAux p s cs).length ≤ cs.length := by
  induction s, cs using processAux.induct p
  all_goals (try simp_all [processAux])
  all_goals try omega
  all_goals rename_i cs1 ih
  all_goals first
    | (have h1 := maybe_close_length_le (skipStars cs1).2
       have h2 := skipStars_length_eq cs1
       omega)
    | (have h1 := maybe_close_length_le cs1
       omega)

theorem processAux_count_newline (p : Bool) (s : State) (cs : List Char)
    (h : ('\\' : Char) ∉ cs) :
    (processAux p s cs).count '\n' = cs.count '\n' := by
  induction s, cs using processAux.induct p
  all_goals (try simp_all [processAux, List.count_cons])
  all_goals solve
    | (split <;> simp_all)
    | (rename_i cs1 ih
       have hs := skipStars_not_mem '\\' (by decide) h
       have hm := maybe_close_not_mem '\\' (by decide) (by decide) (by decide) (by decide) hs
       have e1 := maybe_close_count_eq '\n' (by decide) (by decide) (by decide) (by decide)
         (skipStars cs1).2
       have e2 := skipStars_count_eq '\n' (by decide) cs1
       simp_all [List.count_append, List.count_replicate])
    | (rename_i cs1 ih
       have hm := maybe_close_not_mem '\\' (by decide) (by decide) (by decide) (by decide) h
       have e1 := maybe_close_count_eq '\n' (by decide) (by decide) (by decide) (by decide) cs1
       simp_all)

theorem processAux_preserve_eq (s : State) (cs : List Char)
    (hs1 : s ≠ State.StringLiteral) (hs2 : s ≠ State.TextBlockLiteral)
    (h : ('"' : Char) ∉ cs) :
    processAux true s cs = processAux false s cs := by
  induction s, cs using processAux.induct true
  all_goals (try simp_all [processAux])
  all_goals rename_i cs1 ih
  · have hs := skipStars_not_mem '"' (by decide) h
    have hm := maybe_close_not_mem '"' (by decide) (by decide) (by decide) (by decide) hs
    simp_all
    split <;> simp_all
  · have hm := maybe_close_not_mem '"' (by decide) (by decide) (by decide) (by decide) h
    simp_all
    split <;> simp_all

theorem safeAux_length_eq (p : Bool) (s : State) (cs : List Char)
    (h : safeAux s cs = true) :
    (processAux p s cs).length = cs.length := by
  induction s, cs using safeAux.induct
  all_goals (try simp_all [processAux, safeAux])
  all_goals rename_i cs1
  all_goals (have h2 := skipStars_length_eq cs1; omega)

/-- Claim C1, counterexample: for the input `"\` followed by a newline, with
`preserve_strings = false`, the escape rule of `StringLiteral` consumes the
newline as its escape target and emits a space for it, so the output has no
newline while the input has one.  This refutes newline preservation for
arbitrary inputs. -/
theorem c1_cex :
    (process ['"', '\\', '\n'] false).count '\n' ≠ (['"', '\\', '\n'] : List Char).count '\n' := by
  simp [process, processAux, List.count_cons]

/-- Claim C1 (amended): for every input containing no backslash character and
both values of `preserve_strings`, the number of newline characters in the
output of `process` equals the number in the input. -/
theorem c1_newline_count (p : Bool) (cs : List Char) (h : ('\\' : Char) ∉ cs) :
    (process cs p).count '\n' = cs.count '\n' :=
  processAux_count_newline p State.Normal cs h

/-- Witness for `c1_newline_count` at the concrete input `a` + newline. -/
theorem c1_newline_count_witness :
    (process ['a', '\n'] false).count '\n' = (['a', '\n'] : List Char).count '\n' :=
  c1_newline_count false ['a', '\n'] (by decide)

/-- Claim C2, counterexample: the input `/* hi */` has no string literal, no
text block, no backslash and no block-comment continuation line, yet its
output is one character shorter than the input: `maybe_close_block_comment`
runs right where the comment opens and silently consumes the space after
`/*`. -/
theorem c2_cex :
    (process "/* hi */".toList false).length ≠ ("/* hi */".toList).length := by
  simp [process, processAux, maybe_close_block_comment, skipSpacesTabs, skipStars]

/-- Claim C2 (amended): for both values of `preserve_strings`, output length
equals input length for every input on which the scan performs none of the
length-breaking steps, as captured by `safeAux`: no backslash-escape reached
in `StringLiteral`/`TextBlockLiteral`, no two-quote-but-not-three collapse in
`TextBlockLiteral`, and no character consumed by `maybe_close_block_comment`
(which also runs where a block comment opens, not only on continuation
lines). -/
theorem c2_length_preserved (p : Bool) (cs : List Char)
    (h : safeAux State.Normal cs = true) :
    (process cs p).length = cs.length :=
  safeAux_length_eq p State.Normal cs h

/-- Witness for `c2_length_preserved` at a concrete line-comment input. -/
theorem c2_length_preserved_witness :
    (process "int x; // set x".toList false).length = ("int x; // set x".toList).length :=
  c2_length_preserved false _ (by simp [safeAux])

/-- Claim C3, counterexample: a block comment opened by `/*` and never closed
does not degrade to `Normal` at the next line break; for the input `/*`,
newline, `y` the scanner is still in `BlockComment` at end of input even
though a line break followed the unterminated opening. -/
theorem c3_cex : finalState ['/', '*', '\n', 'y'] ≠ State.Normal := by
  simp [finalState, finalStateAux, maybe_close_block_comment, skipSpacesTabs, skipStars]

/-- Claim C3 (amended): the fall-back-at-line-break rule holds for the two
single-line literal states only: reading a newline in `StringLiteral` or
`CharLiteral` returns the scanner to `Normal` (the rest of the run proceeds
exactly as from `Normal`); `BlockComment` and `TextBlockLiteral` are
inherently multi-line and are not exited at line breaks.  The scanner is a
total function, so no input ends in an error in any state. -/
theorem c3_degrade (cs : List Char) :
    finalStateAux State.StringLiteral ('\n' :: cs) = finalStateAux State.Normal cs ∧
    finalStateAux State.CharLiteral ('\n' :: cs) = finalStateAux State.Normal cs := by
  constructor <;> simp [finalStateAux]

/-- Claim C4, counterexample: when the backslash is the final character of the
input, `StringLiteral` emits nothing for it (the Rust code only pushes a
replacement inside `if let Some(escaped) = chars.next()`), so the claimed
"exactly one output character for every position at which StringLiteral
processes a backslash" fails at `preserve_strings = false`, remaining
input `['\\']`. -/
theorem c4_cex :
    ¬ ∀ (p : Bool) (cs : List Char),
        (processAux p State.StringLiteral ('\\' :: cs)).length =
          1 + (processAux p State.StringLiteral cs.tail).length := by
  intro hcl
  have h := hcl false []
  simp [processAux] at h

/-- Claim C4 (amended): in `StringLiteral`, a backslash followed by a
character consumes that character and emits exactly one output character (the
escaped character itself if `preserve_strings`, otherwise one space); a
backslash that is the final character of the input consumes nothing and emits
nothing. -/
theorem c4_escape (p : Bool) (e : Char) (cs : List Char) :
    processAux p State.StringLiteral ('\\' :: e :: cs) =
      (if p then e else ' ') :: processAux p State.StringLiteral cs ∧
    processAux p State.StringLiteral ['\\'] = [] := by
  constructor <;> simp [processAux]

/-- Claim C5, counterexample: `process "/* hi */" false` is not the
eight-character string of two spaces, ` hi ` verbatim, and two spaces: the
space directly after `/*` is consumed without output by
`maybe_close_block_comment`. -/
theorem c5_cex : process "/* hi */".toList false ≠ "   hi   ".toList := by
  simp [process, processAux, maybe_close_block_comment, skipSpacesTabs, skipStars]

/-- Claim C5 (amended): `process "/* hi */" false` is the seven-character
string `<2 spaces>hi<1 space><2 spaces>`: `/*` becomes two spaces, the space
after `/*` is consumed by the continuation check with no output, `hi ` is
copied verbatim, and `*/` becomes two spaces. -/
theorem c5_eval : process "/* hi */".toList false = "  hi   ".toList := by
  simp [process, processAux, maybe_close_block_comment, skipSpacesTabs, skipStars]

/-- Claim C6, counterexample: a tab character is whitespace and is none of
`/`, `"`, `'`, but `process` masks it to a space, so whitespace-only inputs
containing tabs are not fixed points. -/
theorem c6_cex : process ['\t'] false ≠ ['\t'] := by
  simp [process, processAux]

/-- Claim C6 (amended): every input consisting only of space and newline
characters is a fixed point of `process`, for both values of
`preserve_strings`. -/
theorem c6_fixed (p : Bool) (cs : List Char) (h : ∀ c ∈ cs, c = ' ' ∨ c = '\n') :
    process cs p = cs := by
  unfold process
  induction cs with
  | nil => simp [processAux]
  | cons c cs ih =>
    have hcs : ∀ c ∈ cs, c = ' ' ∨ c = '\n' := fun c hc => h c (List.mem_cons_of_mem _ hc)
    rcases h c (List.mem_cons_self c cs) with hc | hc <;> subst hc <;>
      simp [processAux, ih hcs]

/-- Witness for `c6_fixed` at the concrete input space, newline, space. -/
theorem c6_fixed_witness : process [' ', '\n', ' '] false = [' ', '\n', ' '] :=
  c6_fixed false [' ', '\n', ' '] (by decide)

/-- Claim C7: for every input containing no double-quote character, the output
of `process` does not depend on `preserve_strings` (in particular
character-literal content is masked under both flag values, since without a
`"` the string and text-block states are never entered and they are the only
states that consult the flag). -/
theorem c7_flag_independent (cs : List Char) (h : ('"' : Char) ∉ cs) :
    process cs true = process cs false :=
  processAux_preserve_eq State.Normal cs (by decide) (by decide) h

/-- Witness for `c7_flag_independent` at a concrete comment input. -/
theorem c7_flag_independent_witness :
    process "int a; // x".toList true = process "int a; // x".toList false :=
  c7_flag_independent _ (by decide)

/-- Claim C8: for `BufferedCharReader`, peeking again after a peek returns the
identical character and leaves the reader unchanged; `next_char` after a peek
first returns the peeked character; and both operations respect the FIFO
order of the remaining stream (`toList`): `next_char` yields the head and
leaves the tail, while `peek_char` yields the head and preserves the whole
sequence. -/
theorem c8_reader (r : BufferedCharReader) :
    (r.peek_char.2).peek_char = (r.peek_char.1, r.peek_char.2) ∧
    r.peek_char.1 = r.toList.head? ∧
    (r.peek_char.2).toList = r.toList ∧
    (r.peek_char.2).next_char.1 = r.peek_char.1 ∧
    r.next_char.1 = r.toList.head? ∧
    (r.next_char.2).toList = r.toList.tail := by
  rcases r with ⟨s, po⟩
  rcases po with _ | c <;> rcases s with _ | ⟨c1, s⟩ <;>
    simp [BufferedCharReader.peek_char, BufferedCharReader.next_char, BufferedCharReader.toList]

/-- Claim C9: for every input and both values of `preserve_strings`, the
output of `process` is never longer than the input: every step of the scanner
emits at most as many characters as it consumes. -/
theorem c9_no_insertion (p : Bool) (cs : List Char) :
    (process cs p).length ≤ cs.length :=
  processAux_length_le p State.Normal cs

/-- Claim C10: on the successful path of `main`, the characters written to
standard output are exactly the result of `process` followed by one newline
appended by `println!`, so the emitted stream always ends with a newline. -/
theorem c10_stdout (input : List Char) (p : Bool) :
    mainOutput input p = process input p ++ ['\n'] ∧
    (mainOutput input p).getLast? = some '\n' := by
  refine ⟨rfl, ?_⟩
  simp [mainOutput]

end JavaExtractor
